import Mathlib

/-!
A verification development for the `render-media` package (`index.js`).

The definitions below are a shallow embedding of `index.js`:

* the static extension tables and the extension/codec lookups are transcribed
  directly;
* the event-driven strategy dispatcher for MediaSource-eligible files
  (`renderMediaSource` and its nested handler closures) together with the plain
  audio/video path (`renderMediaElement`) is embedded as an explicit state
  machine `MState` driven by environment events (`EnvEvent`), with the handler
  closures (`fallbackToMediaSource`, `fallbackToBlobURL`, `fatalError`,
  `onLoadStart`, `onLoadedMetadata`, the progress-capture closure) transcribed
  as Lean functions on the state;
* the synchronous entry-point validation (`validateFile`, `render`, `append`)
  is embedded with `Except`, where `Except.error` models a synchronous throw;
* the unknown-extension byte sniff (`tryRenderIframe`) is embedded as a pure
  function of the file's byte content and a possible stream read error.

DOM collaborator modelling notes (these model the browser, not `index.js`):
attaching a new media source to an element (a `VideoStream`, a
`MediaElementWrapper`, or assigning `elem.src`) starts a fresh load, which
resets the element's playback position to 0 (HTMLMediaElement semantics); a
DOM `error` event object carries no `message` property, so the string a
fallback or fatal handler reads from it is modelled by the literal
`"undefined"`; playback advancing the element's position is the environment
event `timeUpdate`.
-/

namespace RenderMedia

/-! ## Static extension tables (transcribed from `index.js`) -/

-- Note from the source: everything listed in VIDEOSTREAM_EXTS should also
-- appear in either MEDIASOURCE_VIDEO_EXTS or MEDIASOURCE_AUDIO_EXTS.
def VIDEOSTREAM_EXTS : List String := [".m4a", ".m4b", ".m4p", ".m4v", ".mp4"]

def MEDIASOURCE_VIDEO_EXTS : List String := [".m4v", ".mkv", ".mp4", ".webm"]

def MEDIASOURCE_AUDIO_EXTS : List String := [".m4a", ".m4b", ".m4p", ".mp3"]

def MEDIASOURCE_EXTS : List String := MEDIASOURCE_VIDEO_EXTS ++ MEDIASOURCE_AUDIO_EXTS

def VIDEO_EXTS : List String := [".mov", ".ogv"]

def AUDIO_EXTS : List String := [".aac", ".oga", ".ogg", ".wav", ".flac"]

def IMAGE_EXTS : List String := [".bmp", ".gif", ".jpeg", ".jpg", ".png", ".svg"]

def IFRAME_EXTS : List String := [".css", ".html", ".js", ".md", ".pdf", ".srt", ".txt"]

/-- `MAX_BLOB_LENGTH`: maximum file length for which the Blob URL strategy will
be attempted (200 MB). -/
def MAX_BLOB_LENGTH : Int := 200 * 1000 * 1000

/-! ## `path.extname(...).toLowerCase()` -/

/-- The characters of the last path segment of `name` (Node `path.basename`,
restricted to what `path.extname` needs: everything after the last `/`). -/
def basenameChars (name : String) : List Char :=
  (name.toList.reverse.takeWhile (fun c => c ≠ '/')).reverse

/-- Node's `path.extname(name)` followed by `.toLowerCase()`, as used
throughout `index.js`: the substring of the basename from its last `.` to the
end, lowercased; empty when the basename has no dot, when the only dot is its
first character (dotfiles), or for the special basename `..`. -/
def extnameOf (name : String) : String :=
  let base := basenameChars name
  if base = ['.', '.'] then ""
  else if base.contains '.' then
    let tail := base.reverse.takeWhile (fun c => c ≠ '.')
    if base.length - tail.length - 1 = 0 then ""
    else String.mk (('.' :: tail.reverse).map Char.toLower)
  else ""

/-! ## Options (`parseOpts`) -/

structure Opts where
  autoplay : Bool
  muted : Bool
  controls : Bool
  maxBlobLength : Int
deriving DecidableEq, Repr

/-- The caller-supplied options object before defaulting; `none` models an
absent (or `null`/`undefined`) field. -/
structure OptsIn where
  autoplay : Option Bool := none
  muted : Option Bool := none
  controls : Option Bool := none
  maxBlobLength : Option Int := none

/-- `parseOpts`: fills defaults for any omitted field. -/
def parseOpts (o : OptsIn) : Opts :=
  { autoplay := o.autoplay.getD false
    muted := o.muted.getD false
    controls := o.controls.getD true
    maxBlobLength := o.maxBlobLength.getD MAX_BLOB_LENGTH }

def defaultOpts : Opts := parseOpts {}

/-! ## Codec table (`getCodec`) -/

/-- The literal object keyed by extension inside `getCodec`. -/
def codecFor (extname : String) : Option String :=
  if extname = ".m4a" then some "audio/mp4; codecs=\"mp4a.40.5\""
  else if extname = ".m4b" then some "audio/mp4; codecs=\"mp4a.40.5\""
  else if extname = ".m4p" then some "audio/mp4; codecs=\"mp4a.40.5\""
  else if extname = ".m4v" then some "video/mp4; codecs=\"avc1.640029, mp4a.40.5\""
  else if extname = ".mkv" then some "video/webm; codecs=\"avc1.640029, mp4a.40.5\""
  else if extname = ".mp3" then some "audio/mpeg"
  else if extname = ".mp4" then some "video/mp4; codecs=\"avc1.640029, mp4a.40.5\""
  else if extname = ".webm" then some "video/webm; codecs=\"vorbis, vp8\""
  else none

/-- `getCodec(name)`: looks the lowercased extension of `name` up in the codec
table; `none` models the undefined JS lookup result. -/
def getCodec (name : String) : Option String :=
  codecFor (extnameOf name)

/-! ## The category dispatch at the top of `renderMedia` -/

inductive Category
  | mediaSourceCat
  | plainVideo
  | plainAudio
  | imageCat
  | iframeDoc
  | unknownCat
deriving DecidableEq, Repr

/-- The `if`/`else if` chain at the top of `renderMedia`, in source order. -/
def categoryOf (ext : String) : Category :=
  if ext ∈ MEDIASOURCE_EXTS then .mediaSourceCat
  else if ext ∈ VIDEO_EXTS then .plainVideo
  else if ext ∈ AUDIO_EXTS then .plainAudio
  else if ext ∈ IMAGE_EXTS then .imageCat
  else if ext ∈ IFRAME_EXTS then .iframeDoc
  else .unknownCat

/-! ## The file resource and render parameters -/

/-- A validated file resource: `name` is a string, `length` is `some n` when
`file.length` is a number and `none` when it is absent or non-numeric, and
`content` is the byte sequence `createReadStream` serves. -/
structure File where
  name : String
  length : Option Int
  content : List Nat
deriving DecidableEq, Repr

structure Params where
  file : File
  opts : Opts
deriving DecidableEq, Repr

/-! ## The event-driven dispatcher state (`renderMediaSource` / `renderMediaElement`) -/

/-- The active strategy: the three `renderMediaSource` strategies, plus the
plain audio/video path of `renderMediaElement` (which has no fallback). -/
inductive Strategy
  | videostream
  | mediaSource
  | blobURL
  | plainMedia
deriving DecidableEq, Repr

/-- The handler functions of `renderMedia` that are ever installed as DOM
event listeners. -/
inductive Handler
  | hFallbackToMediaSource
  | hFallbackToBlobURL
  | hFatalError
  | hOnLoadStart
  | hOnLoadedMetadata
  | hProgress
deriving DecidableEq, Repr

inductive DomEvent
  | error
  | loadstart
  | loadedmetadata
  | progress
deriving DecidableEq, Repr

/-- One invocation of the caller's completion callback: `err` is the error
message (`none` on success) and `elemPassed` records whether the element was
passed as the second argument (`cb(null, elem)` passes it, `cb(err)` does
not). -/
structure CbCall where
  err : Option String
  elemPassed : Bool
deriving DecidableEq, Repr

/-- The media element owned by the render call. `attached` records that the
append-mode `getElem` appended it to the parent; `currentTime` is its playback
position in seconds. -/
structure Elem where
  listeners : List (DomEvent × Handler)
  src : Option String
  currentTime : ℚ
  attached : Bool
deriving DecidableEq, Repr

/-- The mutable state captured by the `renderMedia` closures: `currentTime` is
the closure variable updated by the progress listener, `elem` the element
(created at most once by `prepareElem`), `getElemCalls` how many times the
caller's `getElem` hook ran, `pendingBlob` whether a `getBlobURL` conversion is
outstanding, `pendingPlay` whether an `elem.play()` promise is outstanding,
`codecsHanded` the codec arguments handed to `createWriteStream`, and
`cbCalls` every completion-callback invocation so far, in order. -/
structure MState where
  currentTime : ℚ
  elem : Option Elem
  getElemCalls : Nat
  strategy : Strategy
  pendingBlob : Bool
  pendingPlay : Bool
  codecsHanded : List (Option String)
  cbCalls : List CbCall
deriving DecidableEq, Repr

/-- `addEventListener`: a no-op when the same (event, handler) pair is already
registered. -/
def addL (l : List (DomEvent × Handler)) (e : DomEvent) (h : Handler) :
    List (DomEvent × Handler) :=
  if (e, h) ∈ l then l else l ++ [(e, h)]

/-- `removeEventListener`. -/
def removeL (l : List (DomEvent × Handler)) (e : DomEvent) (h : Handler) :
    List (DomEvent × Handler) :=
  l.filter (fun p => p ≠ (e, h))

def mapElem (f : Elem → Elem) (s : MState) : MState :=
  { s with elem := s.elem.map f }

/-- The message prefixing done by `fatalError` before it invokes the
callback. -/
def fatalMsg (name msg : String) : String :=
  "Error rendering file \"" ++ name ++ "\": " ++ msg

/-- The message built by `checkBlobLength` when the file is too large. -/
def tooLargeMsg (len max : Int) : String :=
  "File length too large for Blob URL approach: " ++ toString len ++
    " (max: " ++ toString max ++ ")"

/-- A DOM `error` event object has no `message` property, so
`err.message` reads `undefined` inside `fatalError`. -/
def domErrorMsg : String := "undefined"

/-- `fatalError(err)`: prefixes the message with the file name and invokes the
callback with the error only (no element argument). -/
def runFatalError (P : Params) (msg : String) (s : MState) : MState :=
  { s with cbCalls := s.cbCalls ++ [⟨some (fatalMsg P.file.name msg), false⟩] }

/-- The guard result of `checkBlobLength`: the possibly-fatal-called state and
whether the guard passed. -/
def checkBlobVerdict (P : Params) : Option String :=
  match P.file.length with
  | some n => if P.opts.maxBlobLength < n then some (tooLargeMsg n P.opts.maxBlobLength) else none
  | none => none

/-- `checkBlobLength()`: when `file.length` is a number exceeding
`opts.maxBlobLength`, calls `fatalError` and returns `false`; otherwise
returns `true`. -/
def checkBlobLength (P : Params) (s : MState) : MState × Bool :=
  match checkBlobVerdict P with
  | some m => (runFatalError P m s, false)
  | none => (s, true)

/-- `onLoadStart`: removes itself and, under `opts.autoplay`, calls
`elem.play()` whose promise may later reject. -/
def runOnLoadStart (P : Params) (s : MState) : MState :=
  let s := mapElem (fun e => { e with listeners := removeL e.listeners .loadstart .hOnLoadStart }) s
  if P.opts.autoplay then { s with pendingPlay := true } else s

/-- `onLoadedMetadata`: removes itself and invokes `cb(null, elem)`. -/
def runOnLoadedMetadata (s : MState) : MState :=
  let s := mapElem (fun e =>
    { e with listeners := removeL e.listeners .loadedmetadata .hOnLoadedMetadata }) s
  { s with cbCalls := s.cbCalls ++ [⟨none, true⟩] }

/-- The progress listener installed by `prepareElem`: captures
`elem.currentTime` into the closure variable. -/
def runProgress (s : MState) : MState :=
  match s.elem with
  | some e => { s with currentTime := e.currentTime }
  | none => s

/-- `prepareElem()`: creates the element through the caller's `getElem` hook
and installs the progress-capture listener, but only the first time. -/
def prepareElem (s : MState) : MState :=
  match s.elem with
  | some _ => s
  | none =>
      { s with elem := some ⟨[(.progress, .hProgress)], none, 0, true⟩,
               getElemCalls := s.getElemCalls + 1 }

/-- The three `addEventListener` calls common to `useVideostream`,
`useMediaSource` and `useBlobURL`, with the strategy's error handler. -/
def attachListeners (errH : Handler) (e : Elem) : Elem :=
  let l := addL (addL (addL e.listeners .error errH) .loadstart .hOnLoadStart)
    .loadedmetadata .hOnLoadedMetadata
  { e with listeners := l }

/-- `useVideostream()`: prepares the element, wires the listeners with
`fallbackToMediaSource` as the error handler, and hands the element to a new
`VideoStream` (starting a fresh load, which resets the playback position). -/
def useVideostream (P : Params) (s : MState) : MState :=
  let s := prepareElem s
  let s := mapElem (attachListeners .hFallbackToMediaSource) s
  let s := mapElem (fun e => { e with currentTime := 0 }) s
  { s with strategy := .videostream }

/-- `useMediaSource()`: prepares the element, wires the listeners with
`fallbackToBlobURL` as the error handler, hands `getCodec(file.name)` to the
wrapper's `createWriteStream` (a fresh load, resetting the position), and then
runs `if (currentTime) elem.currentTime = currentTime`. -/
def useMediaSource (P : Params) (s : MState) : MState :=
  let s := prepareElem s
  let s := mapElem (attachListeners .hFallbackToBlobURL) s
  let s := { s with codecsHanded := s.codecsHanded ++ [getCodec P.file.name],
                    strategy := .mediaSource }
  let s := mapElem (fun e => { e with currentTime := 0 }) s
  if s.currentTime ≠ 0 then mapElem (fun e => { e with currentTime := s.currentTime }) s else s

/-- `useBlobURL()`: prepares the element, wires the listeners with
`fatalError` as the error handler, and starts `getBlobURL` (the whole-resource
read); the blob callback arrives later as an environment event. -/
def useBlobURL (P : Params) (s : MState) : MState :=
  let s := prepareElem s
  let s := mapElem (attachListeners .hFatalError) s
  { s with strategy := .blobURL, pendingBlob := true }

/-- `fallbackToMediaSource(err)`: detaches its own error listener and the
metadata listener, then runs `useMediaSource`. -/
def runFallbackToMediaSource (P : Params) (s : MState) : MState :=
  let s := mapElem (fun e =>
    let l := removeL (removeL e.listeners .error .hFallbackToMediaSource)
      .loadedmetadata .hOnLoadedMetadata
    { e with listeners := l }) s
  useMediaSource P s

/-- `fallbackToBlobURL(err)`: returns right after `checkBlobLength` fails
(leaving the listeners in place); otherwise detaches its own error listener
and the metadata listener and runs `useBlobURL`. -/
def runFallbackToBlobURL (P : Params) (s : MState) : MState :=
  let c := checkBlobLength P s
  if c.2 then
    let s := mapElem (fun e =>
      let l := removeL (removeL e.listeners .error .hFallbackToBlobURL)
        .loadedmetadata .hOnLoadedMetadata
      { e with listeners := l }) c.1
    useBlobURL P s
  else c.1

def runHandler (P : Params) (h : Handler) (s : MState) : MState :=
  match h with
  | .hFallbackToMediaSource => runFallbackToMediaSource P s
  | .hFallbackToBlobURL => runFallbackToBlobURL P s
  | .hFatalError => runFatalError P domErrorMsg s
  | .hOnLoadStart => runOnLoadStart P s
  | .hOnLoadedMetadata => runOnLoadedMetadata s
  | .hProgress => runProgress s

/-- The handlers registered on `e` for event `ev`, in registration order. -/
def handlersFor (e : Elem) (ev : DomEvent) : List Handler :=
  (e.listeners.filter (fun p => p.1 = ev)).map Prod.snd

/-- DOM event dispatch: fires every listener registered for the event at
dispatch time, in order. -/
def dispatchDom (P : Params) (ev : DomEvent) (s : MState) : MState :=
  match s.elem with
  | none => s
  | some e => (handlersFor e ev).foldl (fun st h => runHandler P h st) s

/-- The result of a `getBlobURL` conversion. -/
inductive BlobResult
  | ok (url : String)
  | err (msg : String)
deriving DecidableEq, Repr

/-- The `getBlobURL` continuation. For `useBlobURL` (any MediaSource-path
strategy): on error, `fatalError`; on success, assign `elem.src` (a fresh
load, resetting the position) and then `if (currentTime) elem.currentTime =
currentTime`. For `renderMediaElement`'s callback (`plainMedia`): on error,
`fatalError`; on success, attach the listeners (with `fatalError` as error
handler) and assign `elem.src` (no position re-application). -/
def onBlobResolved (P : Params) (r : BlobResult) (s : MState) : MState :=
  if s.pendingBlob then
    let s := { s with pendingBlob := false }
    match r with
    | .err m => runFatalError P m s
    | .ok url =>
        if s.strategy = .plainMedia then
          mapElem (fun e =>
            { attachListeners .hFatalError e with src := some url, currentTime := 0 }) s
        else
          let s := mapElem (fun e => { e with src := some url, currentTime := 0 }) s
          if s.currentTime ≠ 0 then
            mapElem (fun e => { e with currentTime := s.currentTime }) s
          else s
  else s

/-- Environment events driving one render: DOM events on the element, playback
advancing the element position, a `getBlobURL` resolution, and an autoplay
promise rejection. -/
inductive EnvEvent
  | dom (ev : DomEvent)
  | timeUpdate (t : ℚ)
  | blobResolved (r : BlobResult)
  | playRejected (msg : String)

def msStep (P : Params) (s : MState) (ev : EnvEvent) : MState :=
  match ev with
  | .dom d => dispatchDom P d s
  | .timeUpdate t => mapElem (fun e => { e with currentTime := t }) s
  | .blobResolved r => onBlobResolved P r s
  | .playRejected m => if s.pendingPlay then runFatalError P m { s with pendingPlay := false } else s

def s0 (str : Strategy) : MState :=
  ⟨0, none, 0, str, false, false, [], []⟩

/-- `renderMediaSource()` up to its first suspension: picks the first strategy
from the platform's MediaSource capability and the extension. -/
def initMS (P : Params) (supported : Bool) : MState :=
  if supported then
    if extnameOf P.file.name ∈ VIDEOSTREAM_EXTS then useVideostream P (s0 .videostream)
    else useMediaSource P (s0 .videostream)
  else useBlobURL P (s0 .videostream)

/-- `renderMediaElement(type)` up to its first suspension: the length guard
runs first; only when it passes is the element created (directly via `getElem`,
with no progress listener) and the whole-resource read started. -/
def initPlain (P : Params) : MState :=
  let c := checkBlobLength P (s0 .plainMedia)
  if c.2 then
    { c.1 with elem := some ⟨[], none, 0, true⟩, getElemCalls := 1, pendingBlob := true }
  else c.1

def runMS (P : Params) (supported : Bool) (evs : List EnvEvent) : MState :=
  evs.foldl (msStep P) (initMS P supported)

def runPlain (P : Params) (evs : List EnvEvent) : MState :=
  evs.foldl (msStep P) (initPlain P)

/-- `append`'s `done(err, elem)` wrapper removes the element exactly when both
arguments are truthy: `true` here means the element is removed. -/
def appendDone (c : CbCall) : Bool :=
  c.err.isSome && c.elemPassed

/-! ## The unknown-extension sniff (`tryRenderIframe`) -/

/-- Modelled from the spec: the `is-ascii` dependency (its source is not part
of `src/`) classifies the decoded byte prefix as ascii-plausible text or not.
Per the spec (the ContentSniffer section and the testable properties), plain
ASCII text is ascii-plausible and a prefix containing a null byte is not: a
byte counts as ascii text when it is printable ASCII (0x20 to 0x7E) or common
whitespace (tab, line feed, carriage return). Bytes at or above 0x80 would in
any case decode to non-ASCII replacement characters under the stream's utf8
decoding. -/
def isAsciiText (bytes : List Nat) : Bool :=
  bytes.all (fun c => (32 ≤ c && c ≤ 126) || c = 9 || c = 10 || c = 13)

/-- The bytes served by `file.createReadStream({ start: 0, end: 1000 })`:
Node ranges are inclusive, so at most the first 1001 bytes. -/
def sniffRead (content : List Nat) : List Nat :=
  content.take 1001

inductive SniffOutcome
  | readError (msg : String)
  | iframe
  | unsupported (msg : String)
deriving DecidableEq, Repr

/-- `tryRenderIframe()`: a stream error is handed to `cb` unchanged
(`.on('error', cb)`); otherwise the collected prefix decides between
`renderIframe()` (exactly the inline-document path) and the unsupported-type
error naming the extension. -/
def tryRenderIframe (P : Params) (readErr : Option String) : SniffOutcome :=
  match readErr with
  | some m => .readError m
  | none =>
      if isAsciiText (sniffRead P.file.content) then .iframe
      else .unsupported
        ("Unsupported file type \"" ++ extnameOf P.file.name ++ "\": Cannot append to DOM")

/-! ## Entry points: `validateFile`, `render`, `append` -/

/-- The raw `file` argument before validation: `nullFile` is a `null` or
`undefined` argument; in `fileArg`, `name = none` models a missing or
non-string `file.name` and `hasCreateReadStream = false` a missing or
non-function `file.createReadStream`. -/
inductive FileArg
  | nullFile
  | fileArg (name : Option String) (hasCreateReadStream : Bool)
      (length : Option Int) (content : List Nat)
deriving DecidableEq, Repr

/-- `validateFile(file)`: the three synchronous checks, in source order;
`Except.error` models a synchronous throw. -/
def validateFile : FileArg → Except String File
  | .nullFile => .error "file cannot be null or undefined"
  | .fileArg none _ _ _ => .error "missing or invalid file.name property"
  | .fileArg (some _) false _ _ => .error "missing or invalid file.createReadStream property"
  | .fileArg (some n) true len c => .ok ⟨n, len, c⟩

/-- The error thrown by `render`'s `getElem` hook on a tag mismatch. -/
def mismatchMsg (ext nodeNameLower tag : String) : String :=
  "Cannot render \"" ++ ext ++ "\" inside a \"" ++ nodeNameLower ++
    "\" element, expected \"" ++ tag ++ "\""

/-- JS `String.prototype.toUpperCase` on the ASCII tag/node names involved. -/
def jsToUpper (s : String) : String := String.mk (s.toList.map Char.toUpper)

/-- JS `String.prototype.toLowerCase` on the ASCII tag/node names involved. -/
def jsToLower (s : String) : String := String.mk (s.toList.map Char.toLower)

/-- `render`'s `getElem` hook: throws (`some msg`) when the existing target
element's node name does not match the requested tag. -/
def renderGetElemCheck (ext elemNodeName tag : String) : Option String :=
  if elemNodeName ≠ jsToUpper tag then some (mismatchMsg ext (jsToLower elemNodeName) tag)
  else none

/-- What the synchronous part of a `render` call produces once validation has
passed: either a synchronous throw, or a normal return together with any
callback invocations already made synchronously. -/
inductive SyncResult
  | threw (msg : String)
  | startedCb (calls : List CbCall)
deriving DecidableEq, Repr

/-- The tag `renderMedia` requests from `getElem` synchronously, during the
entry call itself; `none` for the inline-document and unknown categories,
where `getElem` only runs later inside an asynchronous callback. -/
def syncTagFor (ext : String) : Option String :=
  match categoryOf ext with
  | .mediaSourceCat => some (if ext ∈ MEDIASOURCE_VIDEO_EXTS then "video" else "audio")
  | .plainVideo => some "video"
  | .plainAudio => some "audio"
  | .imageCat => some "img"
  | .iframeDoc => none
  | .unknownCat => none

/-- The synchronous phase of `renderMedia` under `render`'s throwing `getElem`
hook: the MediaSource and image paths request the element at once (every
branch of `renderMediaSource` runs `prepareElem` synchronously);
`renderMediaElement` runs the length guard first, so an oversized file reports
through the callback without the element ever being requested; the
inline-document and unknown-extension paths suspend before touching the
element. -/
def renderSyncPhase (file : File) (elemNodeName : String) (opts : Opts) : SyncResult :=
  let ext := extnameOf file.name
  match categoryOf ext with
  | .mediaSourceCat =>
      let tag := if ext ∈ MEDIASOURCE_VIDEO_EXTS then "video" else "audio"
      match renderGetElemCheck ext elemNodeName tag with
      | some m => .threw m
      | none => .startedCb []
  | .plainVideo =>
      match checkBlobVerdict ⟨file, opts⟩ with
      | some m => .startedCb [⟨some (fatalMsg file.name m), false⟩]
      | none =>
          match renderGetElemCheck ext elemNodeName "video" with
          | some m => .threw m
          | none => .startedCb []
  | .plainAudio =>
      match checkBlobVerdict ⟨file, opts⟩ with
      | some m => .startedCb [⟨some (fatalMsg file.name m), false⟩]
      | none =>
          match renderGetElemCheck ext elemNodeName "audio" with
          | some m => .threw m
          | none => .startedCb []
  | .imageCat =>
      match renderGetElemCheck ext elemNodeName "img" with
      | some m => .threw m
      | none => .startedCb []
  | .iframeDoc => .startedCb []
  | .unknownCat => .startedCb []

/-- `render(file, elem, opts, cb)` up to its first suspension. -/
def renderEntry (file : FileArg) (elemNodeName : String) (opts : Opts) :
    Except String SyncResult :=
  (validateFile file).map (fun f => renderSyncPhase f elemNodeName opts)

/-- `append(file, rootElem, opts, cb)` up to the end of its synchronous
checks: validation, then the video/audio-parent check. -/
def appendEntry (file : FileArg) (parentNodeName : String) : Except String Unit :=
  (validateFile file).bind (fun _ =>
    if parentNodeName = "VIDEO" ∨ parentNodeName = "AUDIO" then
      .error ("Invalid video/audio node argument. Argument must be root element that " ++
        "video/audio tag will be appended to.")
    else .ok ())

/-- How `renderIframe()`'s `getBlobURL` continuation ends under `render`'s
throwing `getElem` hook: a conversion error goes through `fatalError` to the
callback; on success the element is requested only now, so a tag mismatch
throws inside the promise callback (an uncaught rejection that never reaches
the completion callback). -/
inductive AsyncOut
  | cbOk
  | cbErr (msg : String)
  | uncaughtThrow (msg : String)
deriving DecidableEq, Repr

def renderIframeAsync (file : File) (elemNodeName : String) (blob : BlobResult) : AsyncOut :=
  let ext := extnameOf file.name
  match blob with
  | .err m => .cbErr (fatalMsg file.name m)
  | .ok _ =>
      let tag := if ext ≠ ".pdf" then "iframe" else "object"
      match renderGetElemCheck ext elemNodeName tag with
      | some m => .uncaughtThrow m
      | none => .cbOk

/-! ## Dispatcher invariants -/

/-- The error listener each strategy installs. -/
def errHandlerFor : Strategy → Handler
  | .videostream => .hFallbackToMediaSource
  | .mediaSource => .hFallbackToBlobURL
  | .blobURL => .hFatalError
  | .plainMedia => .hFatalError

/-- The unique handler ever registered for each event, given the active
strategy. -/
def evHandlerOf (str : Strategy) : DomEvent → Handler
  | .error => errHandlerFor str
  | .loadstart => .hOnLoadStart
  | .loadedmetadata => .hOnLoadedMetadata
  | .progress => .hProgress

/-- A listener list is well-formed for a strategy when every registered pair
carries that strategy's handler for its event, with no duplicates. -/
def ListenersWF (str : Strategy) (l : List (DomEvent × Handler)) : Prop :=
  (∀ p ∈ l, p.2 = evHandlerOf str p.1) ∧ l.Nodup

/-- A listener list with no error listener at all (the shape right after a
fallback detaches the failing strategy's error listener). -/
def NeutralWF (l : List (DomEvent × Handler)) : Prop :=
  (∀ p ∈ l, p.1 ≠ DomEvent.error ∧ p.2 = evHandlerOf .videostream p.1) ∧ l.Nodup

/-- The dispatcher invariant: whenever the element exists, its listener list
is well-formed for the active strategy. -/
def Inv (s : MState) : Prop :=
  ∀ e, s.elem = some e → ListenersWF s.strategy e.listeners

/-- Capability order of the strategies: a render only ever moves to a larger
index. -/
def idx : Strategy → Nat
  | .videostream => 0
  | .mediaSource => 1
  | .blobURL => 2
  | .plainMedia => 3

lemma evHandlerOf_nonerror (str str' : Strategy) (d : DomEvent) (hd : d ≠ DomEvent.error) :
    evHandlerOf str d = evHandlerOf str' d := by
  cases d
  · exact absurd rfl hd
  · rfl
  · rfl
  · rfl

lemma nodup_all_eq {α : Type} (l : List α) (hn : l.Nodup) (a : α)
    (ha : ∀ x ∈ l, x = a) : l = [] ∨ l = [a] := by
  match l with
  | [] => exact Or.inl rfl
  | x :: t =>
      right
      have hx : x = a := ha x (List.mem_cons_self _ _)
      subst hx
      have ht : t = [] := by
        cases t with
        | nil => rfl
        | cons y u =>
            exfalso
            have hy : y = x := ha y (by simp)
            have : x ∈ y :: u := by simp [hy]
            exact (List.nodup_cons.mp hn).1 this
      simp [ht]

lemma handlersFor_char {str : Strategy} {e : Elem} (ev : DomEvent)
    (h : ListenersWF str e.listeners) :
    handlersFor e ev = [] ∨ handlersFor e ev = [evHandlerOf str ev] := by
  unfold handlersFor
  set l' := e.listeners.filter (fun p => p.1 = ev) with hl'
  have hmem : ∀ p ∈ l', p = (ev, evHandlerOf str ev) := by
    intro p hp
    rw [hl', List.mem_filter] at hp
    have h1 : p.1 = ev := by simpa using hp.2
    have h2 : p.2 = evHandlerOf str p.1 := h.1 p hp.1
    have : p = (p.1, p.2) := rfl
    rw [this, h1, h2, h1]
  have hnd : l'.Nodup := h.2.filter _
  rcases nodup_all_eq l' hnd _ hmem with h0 | h1
  · left; rw [h0]; rfl
  · right; rw [h1]; rfl

lemma dispatchDom_char (P : Params) (ev : DomEvent) (s : MState) (h : Inv s) :
    dispatchDom P ev s = s ∨
      dispatchDom P ev s = runHandler P (evHandlerOf s.strategy ev) s := by
  unfold dispatchDom
  cases hs : s.elem with
  | none => exact Or.inl rfl
  | some e =>
      rcases handlersFor_char ev (h e hs) with h0 | h1
      · left; dsimp only; rw [h0]; rfl
      · right; dsimp only; rw [h1]; rfl

lemma listenersWF_removeL {str : Strategy} {l : List (DomEvent × Handler)}
    (h : ListenersWF str l) (e : DomEvent) (hh : Handler) :
    ListenersWF str (removeL l e hh) := by
  constructor
  · intro p hp
    exact h.1 p (List.mem_of_mem_filter hp)
  · exact h.2.filter _

lemma nodup_concat {α : Type} [DecidableEq α] {l : List α} {x : α}
    (hn : l.Nodup) (hx : ¬ x ∈ l) : (l ++ [x]).Nodup := by
  rw [List.nodup_append]
  refine ⟨hn, List.nodup_singleton x, ?_⟩
  intro a ha hax
  simp only [List.mem_singleton] at hax
  subst hax
  exact hx ha

lemma listenersWF_addL {str : Strategy} {l : List (DomEvent × Handler)}
    (h : ListenersWF str l) (e : DomEvent) (hh : Handler)
    (hok : hh = evHandlerOf str e) : ListenersWF str (addL l e hh) := by
  unfold addL
  split
  · exact h
  · constructor
    · intro p hp
      rcases List.mem_append.mp hp with hp | hp
      · exact h.1 p hp
      · simp only [List.mem_singleton] at hp
        subst hp
        simpa using hok
    · exact nodup_concat h.2 (by assumption)

lemma listenersWF_attach {str : Strategy} {e : Elem}
    (h : ListenersWF str e.listeners) :
    ListenersWF str (attachListeners (evHandlerOf str .error) e).listeners := by
  unfold attachListeners
  exact listenersWF_addL
    (listenersWF_addL (listenersWF_addL h .error _ rfl) .loadstart _ rfl)
    .loadedmetadata _ rfl

lemma neutralWF_to_WF {l : List (DomEvent × Handler)} (h : NeutralWF l)
    (str : Strategy) : ListenersWF str l := by
  refine ⟨?_, h.2⟩
  intro p hp
  rcases h.1 p hp with ⟨hne, heq⟩
  rw [heq]
  exact evHandlerOf_nonerror _ _ _ hne

lemma switch_neutral {str : Strategy} {l : List (DomEvent × Handler)}
    (h : ListenersWF str l) :
    NeutralWF (removeL (removeL l .error (errHandlerFor str))
      .loadedmetadata .hOnLoadedMetadata) := by
  constructor
  · intro p hp
    have hp1 : p ∈ removeL l .error (errHandlerFor str) := List.mem_of_mem_filter hp
    have hpl : p ∈ l := List.mem_of_mem_filter hp1
    have hne : p ≠ (DomEvent.error, errHandlerFor str) := by
      have := List.of_mem_filter hp1
      simpa using this
    have hwf : p.2 = evHandlerOf str p.1 := h.1 p hpl
    have h1 : p.1 ≠ DomEvent.error := by
      intro hcon
      apply hne
      have : p = (p.1, p.2) := rfl
      rw [this, hcon, hwf, hcon]
      rfl
    refine ⟨h1, ?_⟩
    rw [hwf]
    exact evHandlerOf_nonerror _ _ _ h1
  · exact (h.2.filter _).filter _

lemma mapElem_elem_some {f : Elem → Elem} {s : MState} {e : Elem}
    (he : (mapElem f s).elem = some e) : ∃ e0, s.elem = some e0 ∧ e = f e0 := by
  unfold mapElem at he
  cases hs : s.elem with
  | none => rw [hs] at he; cases he
  | some e0 =>
      rw [hs] at he
      simp only [Option.map_some', Option.some.injEq] at he
      exact ⟨e0, rfl, he.symm⟩

lemma inv_runFatalError {P : Params} {m : String} {s : MState} (h : Inv s) :
    Inv (runFatalError P m s) := fun e he => h e he

lemma inv_runProgress {s : MState} (h : Inv s) : Inv (runProgress s) := by
  unfold runProgress
  cases hs : s.elem with
  | none => exact fun e he => h e he
  | some e0 =>
      intro e he
      have he' : e0 = e := by simpa using he
      subst he'
      exact h _ hs

lemma inv_runOnLoadStart {P : Params} {s : MState} (h : Inv s) :
    Inv (runOnLoadStart P s) := by
  unfold runOnLoadStart
  have key : Inv (mapElem (fun e =>
      { e with listeners := removeL e.listeners .loadstart .hOnLoadStart }) s) := by
    intro e he
    rcases mapElem_elem_some he with ⟨e0, hs0, he0⟩
    subst he0
    exact listenersWF_removeL (h e0 hs0) _ _
  split
  · exact fun e he => key e he
  · exact key

lemma inv_runOnLoadedMetadata {s : MState} (h : Inv s) :
    Inv (runOnLoadedMetadata s) := by
  unfold runOnLoadedMetadata
  intro e he
  rcases mapElem_elem_some he with ⟨e0, hs0, he0⟩
  subst he0
  exact listenersWF_removeL (h e0 hs0) _ _

lemma prepareElem_wf {s : MState} (str : Strategy)
    (h : ∀ e, s.elem = some e → NeutralWF e.listeners) :
    ∀ e, (prepareElem s).elem = some e → ListenersWF str e.listeners := by
  intro e he
  unfold prepareElem at he
  cases hs : s.elem with
  | none =>
      simp only [hs, Option.some.injEq] at he
      subst he
      refine ⟨?_, by decide⟩
      intro p hp
      simp only [List.mem_singleton] at hp
      subst hp
      rfl
  | some e0 =>
      simp only [hs, Option.some.injEq] at he
      subst he
      exact neutralWF_to_WF (h _ hs) _

lemma inv_useVideostream {P : Params} {s : MState}
    (h : ∀ e, s.elem = some e → NeutralWF e.listeners) :
    Inv (useVideostream P s) := by
  unfold useVideostream
  intro e he
  rcases mapElem_elem_some he with ⟨e1, hs1, he1⟩
  rcases mapElem_elem_some hs1 with ⟨e2, hs2, he2⟩
  subst he1; subst he2
  exact listenersWF_attach (prepareElem_wf .videostream h e2 hs2)

lemma inv_useMediaSource {P : Params} {s : MState}
    (h : ∀ e, s.elem = some e → NeutralWF e.listeners) :
    Inv (useMediaSource P s) := by
  have h2 : ∀ e, (mapElem (attachListeners .hFallbackToBlobURL) (prepareElem s)).elem = some e →
      ListenersWF Strategy.mediaSource e.listeners := by
    intro e he
    rcases mapElem_elem_some he with ⟨e0, hs0, he0⟩
    subst he0
    exact listenersWF_attach (prepareElem_wf .mediaSource h e0 hs0)
  unfold useMediaSource
  dsimp only
  split
  · intro e he
    rcases mapElem_elem_some he with ⟨e1, hs1, he1⟩
    rcases mapElem_elem_some hs1 with ⟨e2, hs2, he2⟩
    subst he1; subst he2
    exact h2 e2 hs2
  · intro e he
    rcases mapElem_elem_some he with ⟨e2, hs2, he2⟩
    subst he2
    exact h2 e2 hs2

lemma inv_useBlobURL {P : Params} {s : MState}
    (h : ∀ e, s.elem = some e → NeutralWF e.listeners) :
    Inv (useBlobURL P s) := by
  unfold useBlobURL
  intro e he
  rcases mapElem_elem_some he with ⟨e0, hs0, he0⟩
  subst he0
  exact listenersWF_attach (prepareElem_wf .blobURL h e0 hs0)

lemma inv_runFallbackToMediaSource {P : Params} {s : MState}
    (h : Inv s) (hstr : s.strategy = Strategy.videostream) :
    Inv (runFallbackToMediaSource P s) := by
  unfold runFallbackToMediaSource
  apply inv_useMediaSource
  intro e he
  rcases mapElem_elem_some he with ⟨e0, hs0, he0⟩
  subst he0
  have hwf : ListenersWF Strategy.videostream e0.listeners := by
    rw [← hstr]; exact h e0 hs0
  exact switch_neutral hwf

lemma inv_runFallbackToBlobURL {P : Params} {s : MState}
    (h : Inv s) (hstr : s.strategy = Strategy.mediaSource) :
    Inv (runFallbackToBlobURL P s) := by
  unfold runFallbackToBlobURL
  cases hv : checkBlobVerdict P with
  | some m =>
      simp only [checkBlobLength, hv]
      exact inv_runFatalError h
  | none =>
      simp only [checkBlobLength, hv]
      refine inv_useBlobURL (P := P) ?_
      intro e he
      rcases mapElem_elem_some he with ⟨e0, hs0, he0⟩
      subst he0
      have hwf : ListenersWF Strategy.mediaSource e0.listeners := by
        rw [← hstr]; exact h e0 hs0
      exact switch_neutral hwf

lemma inv_runHandler_dispatched {P : Params} {s : MState} (ev : DomEvent)
    (h : Inv s) : Inv (runHandler P (evHandlerOf s.strategy ev) s) := by
  cases ev with
  | progress => exact inv_runProgress h
  | loadstart => exact inv_runOnLoadStart h
  | loadedmetadata => exact inv_runOnLoadedMetadata h
  | error =>
      cases hstr : s.strategy with
      | videostream => exact inv_runFallbackToMediaSource h hstr
      | mediaSource => exact inv_runFallbackToBlobURL h hstr
      | blobURL => exact inv_runFatalError h
      | plainMedia => exact inv_runFatalError h

lemma inv_onBlobResolved {P : Params} {r : BlobResult} {s : MState} (h : Inv s) :
    Inv (onBlobResolved P r s) := by
  unfold onBlobResolved
  split
  · dsimp only
    split
    · -- err branch
      exact inv_runFatalError (fun e he => h e he)
    · -- ok branch
      split
      · -- plainMedia: re-attach the listeners with fatalError
        rename_i hstr
        intro e he
        rcases mapElem_elem_some he with ⟨e0, hs0, he0⟩
        subst he0
        have hstr' : s.strategy = Strategy.plainMedia := hstr
        have hwf : ListenersWF Strategy.plainMedia e0.listeners := by
          rw [← hstr']; exact h e0 hs0
        have hres := listenersWF_attach hwf
        show ListenersWF s.strategy
          ((attachListeners (evHandlerOf Strategy.plainMedia DomEvent.error) e0).listeners)
        rw [hstr']
        exact hres
      · -- useBlobURL continuation: element fields change, listeners do not
        split
        · intro e he
          rcases mapElem_elem_some he with ⟨e1, hs1, he1⟩
          rcases mapElem_elem_some hs1 with ⟨e0, hs0, he0⟩
          subst he1; subst he0
          exact h e0 hs0
        · intro e he
          rcases mapElem_elem_some he with ⟨e0, hs0, he0⟩
          subst he0
          exact h e0 hs0
  · exact h

lemma inv_step {P : Params} {s : MState} (ev : EnvEvent) (h : Inv s) :
    Inv (msStep P s ev) := by
  cases ev with
  | dom d =>
      have hms : msStep P s (.dom d) = dispatchDom P d s := rfl
      rw [hms]
      rcases dispatchDom_char P d s h with hd | hd <;> rw [hd]
      · exact h
      · exact inv_runHandler_dispatched d h
  | timeUpdate t =>
      have hms : msStep P s (.timeUpdate t) =
          mapElem (fun e => { e with currentTime := t }) s := rfl
      rw [hms]
      intro e he
      rcases mapElem_elem_some he with ⟨e0, hs0, he0⟩
      subst he0
      exact h e0 hs0
  | blobResolved r => exact inv_onBlobResolved h
  | playRejected m =>
      have hms : msStep P s (.playRejected m) =
          if s.pendingPlay then runFatalError P m { s with pendingPlay := false } else s := rfl
      rw [hms]
      split
      · exact fun e he => h e he
      · exact h

lemma foldl_preserve {α β : Type} (Q : β → Prop) (f : β → α → β)
    (hf : ∀ s a, Q s → Q (f s a)) :
    ∀ (l : List α) (s : β), Q s → Q (l.foldl f s) := by
  intro l
  induction l with
  | nil => exact fun s h => h
  | cons a t ih => exact fun s h => ih _ (hf s a h)

/-! ## Effect equations for the dispatcher -/

lemma prepareElem_some {s : MState} {e : Elem} (hs : s.elem = some e) :
    prepareElem s = s := by
  unfold prepareElem; rw [hs]

lemma mapElem_some {f : Elem → Elem} {s : MState} {e : Elem} (hs : s.elem = some e) :
    mapElem f s = { s with elem := some (f e) } := by
  unfold mapElem; rw [hs]; rfl

lemma strategy_prepareElem (s : MState) : (prepareElem s).strategy = s.strategy := by
  unfold prepareElem; cases s.elem <;> rfl

lemma strategy_runProgress (s : MState) : (runProgress s).strategy = s.strategy := by
  unfold runProgress; cases s.elem <;> rfl

lemma strategy_runOnLoadStart (P : Params) (s : MState) :
    (runOnLoadStart P s).strategy = s.strategy := by
  unfold runOnLoadStart; split <;> rfl

lemma strategy_useMediaSource (P : Params) (s : MState) :
    (useMediaSource P s).strategy = Strategy.mediaSource := by
  unfold useMediaSource; dsimp only; split <;> rfl

lemma strategy_runFallbackToMediaSource (P : Params) (s : MState) :
    (runFallbackToMediaSource P s).strategy = Strategy.mediaSource := by
  unfold runFallbackToMediaSource; exact strategy_useMediaSource P _

lemma runFallbackToBlobURL_guard_fail {P : Params} {m : String} (s : MState)
    (hv : checkBlobVerdict P = some m) :
    runFallbackToBlobURL P s = runFatalError P m s := by
  unfold runFallbackToBlobURL
  simp [checkBlobLength, hv]

lemma runFallbackToBlobURL_guard_pass {P : Params} (s : MState)
    (hv : checkBlobVerdict P = none) :
    runFallbackToBlobURL P s = useBlobURL P (mapElem (fun e =>
      let l := removeL (removeL e.listeners .error .hFallbackToBlobURL)
        .loadedmetadata .hOnLoadedMetadata
      { e with listeners := l }) s) := by
  unfold runFallbackToBlobURL
  simp [checkBlobLength, hv]

lemma strategy_onBlobResolved (P : Params) (r : BlobResult) (s : MState) :
    (onBlobResolved P r s).strategy = s.strategy := by
  unfold onBlobResolved
  split
  · dsimp only
    split
    · rfl
    · split
      · rfl
      · split <;> rfl
  · rfl

lemma strategy_step_mono {P : Params} {s : MState} (ev : EnvEvent) (h : Inv s) :
    idx s.strategy ≤ idx (msStep P s ev).strategy := by
  cases ev with
  | dom d =>
      have hms : msStep P s (.dom d) = dispatchDom P d s := rfl
      rw [hms]
      rcases dispatchDom_char P d s h with hd | hd <;> rw [hd]
      cases d with
      | progress =>
          rw [show runHandler P (evHandlerOf s.strategy .progress) s = runProgress s from rfl,
            strategy_runProgress]
      | loadstart =>
          rw [show runHandler P (evHandlerOf s.strategy .loadstart) s = runOnLoadStart P s
            from rfl, strategy_runOnLoadStart]
      | loadedmetadata =>
          rw [show runHandler P (evHandlerOf s.strategy .loadedmetadata) s =
            runOnLoadedMetadata s from rfl]
          exact Nat.le_refl _
      | error =>
          cases hstr : s.strategy with
          | videostream =>
              rw [show runHandler P (evHandlerOf .videostream .error) s =
                runFallbackToMediaSource P s from rfl, strategy_runFallbackToMediaSource]
              decide
          | mediaSource =>
              rw [show runHandler P (evHandlerOf .mediaSource .error) s =
                runFallbackToBlobURL P s from rfl]
              cases hv : checkBlobVerdict P with
              | some m =>
                  rw [runFallbackToBlobURL_guard_fail s hv]
                  rw [show (runFatalError P m s).strategy = s.strategy from rfl, hstr]
              | none =>
                  rw [runFallbackToBlobURL_guard_pass s hv]
                  rw [show (useBlobURL P _).strategy = Strategy.blobURL from rfl]
                  decide
          | blobURL =>
              rw [show runHandler P (evHandlerOf .blobURL .error) s =
                runFatalError P domErrorMsg s from rfl]
              rw [show (runFatalError P domErrorMsg s).strategy = s.strategy from rfl, hstr]
          | plainMedia =>
              rw [show runHandler P (evHandlerOf .plainMedia .error) s =
                runFatalError P domErrorMsg s from rfl]
              rw [show (runFatalError P domErrorMsg s).strategy = s.strategy from rfl, hstr]
  | timeUpdate t => exact Nat.le_refl _
  | blobResolved r =>
      rw [show msStep P s (.blobResolved r) = onBlobResolved P r s from rfl,
        strategy_onBlobResolved]
  | playRejected m =>
      have hms : msStep P s (.playRejected m) =
          if s.pendingPlay then runFatalError P m { s with pendingPlay := false } else s := rfl
      rw [hms]
      split <;> exact Nat.le_refl _

/-! ## Callback bookkeeping -/

lemma cb_mapElem (f : Elem → Elem) (s : MState) : (mapElem f s).cbCalls = s.cbCalls := rfl

lemma cb_prepareElem (s : MState) : (prepareElem s).cbCalls = s.cbCalls := by
  unfold prepareElem; cases s.elem <;> rfl

lemma cb_runProgress (s : MState) : (runProgress s).cbCalls = s.cbCalls := by
  unfold runProgress; cases s.elem <;> rfl

lemma cb_runOnLoadStart (P : Params) (s : MState) :
    (runOnLoadStart P s).cbCalls = s.cbCalls := by
  unfold runOnLoadStart; split <;> rfl

lemma cb_useVideostream (P : Params) (s : MState) :
    (useVideostream P s).cbCalls = s.cbCalls := cb_prepareElem s

lemma cb_useMediaSource (P : Params) (s : MState) :
    (useMediaSource P s).cbCalls = s.cbCalls := by
  unfold useMediaSource; dsimp only; split <;> exact cb_prepareElem s

lemma cb_useBlobURL (P : Params) (s : MState) :
    (useBlobURL P s).cbCalls = s.cbCalls := cb_prepareElem s

lemma cb_runFallbackToMediaSource (P : Params) (s : MState) :
    (runFallbackToMediaSource P s).cbCalls = s.cbCalls := by
  unfold runFallbackToMediaSource
  exact cb_useMediaSource P _

/-- Every handler invocation adds at most one callback call. -/
lemma cb_len_runHandler (P : Params) (hv : Handler) (s : MState) :
    (runHandler P hv s).cbCalls.length ≤ s.cbCalls.length + 1 := by
  cases hv with
  | hFallbackToMediaSource =>
      rw [show runHandler P .hFallbackToMediaSource s = runFallbackToMediaSource P s from rfl,
        cb_runFallbackToMediaSource]
      omega
  | hFallbackToBlobURL =>
      rw [show runHandler P .hFallbackToBlobURL s = runFallbackToBlobURL P s from rfl]
      cases hv : checkBlobVerdict P with
      | some m =>
          rw [runFallbackToBlobURL_guard_fail s hv]
          simp [runFatalError]
      | none =>
          rw [runFallbackToBlobURL_guard_pass s hv, cb_useBlobURL, cb_mapElem]
          omega
  | hFatalError => simp [runHandler, runFatalError]
  | hOnLoadStart =>
      rw [show runHandler P .hOnLoadStart s = runOnLoadStart P s from rfl, cb_runOnLoadStart]
      omega
  | hOnLoadedMetadata => simp [runHandler, runOnLoadedMetadata, cb_mapElem]
  | hProgress =>
      rw [show runHandler P .hProgress s = runProgress s from rfl, cb_runProgress]
      omega

/-- Under the dispatcher invariant, every environment event adds at most one
callback call. -/
lemma cb_len_step {P : Params} {s : MState} (ev : EnvEvent) (h : Inv s) :
    (msStep P s ev).cbCalls.length ≤ s.cbCalls.length + 1 := by
  cases ev with
  | dom d =>
      have hms : msStep P s (.dom d) = dispatchDom P d s := rfl
      rw [hms]
      rcases dispatchDom_char P d s h with hd | hd <;> rw [hd]
      · omega
      · exact cb_len_runHandler P _ s
  | timeUpdate t => exact Nat.le_succ_of_le (Nat.le_refl _)
  | blobResolved r =>
      rw [show msStep P s (.blobResolved r) = onBlobResolved P r s from rfl]
      unfold onBlobResolved
      split
      · dsimp only
        split
        · simp [runFatalError]
        · split
          · simp only [cb_mapElem]; omega
          · split <;> (simp only [cb_mapElem]; omega)
      · omega
  | playRejected m =>
      have hms : msStep P s (.playRejected m) =
          if s.pendingPlay then runFatalError P m { s with pendingPlay := false } else s := rfl
      rw [hms]
      split
      · simp [runFatalError]
      · omega

/-! ## Shape of callback invocations: the error path never passes the element -/

/-- Every callback invocation recorded so far fails `append`'s removal test
(`err && elem`): success calls carry no error, failure calls carry no
element. -/
def CbOK (s : MState) : Prop :=
  ∀ c ∈ s.cbCalls, appendDone c = false

lemma cbok_runHandler {P : Params} {s : MState} (hv : Handler) (h : CbOK s) :
    CbOK (runHandler P hv s) := by
  cases hv with
  | hFallbackToMediaSource =>
      rw [show runHandler P .hFallbackToMediaSource s = runFallbackToMediaSource P s from rfl]
      intro c hc
      rw [cb_runFallbackToMediaSource] at hc
      exact h c hc
  | hFallbackToBlobURL =>
      rw [show runHandler P .hFallbackToBlobURL s = runFallbackToBlobURL P s from rfl]
      cases hv : checkBlobVerdict P with
      | some m =>
          rw [runFallbackToBlobURL_guard_fail s hv]
          intro c hc
          simp only [runFatalError, List.mem_append, List.mem_singleton] at hc
          rcases hc with hc | hc
          · exact h c hc
          · subst hc; rfl
      | none =>
          rw [runFallbackToBlobURL_guard_pass s hv]
          intro c hc
          rw [cb_useBlobURL] at hc
          exact h c hc
  | hFatalError =>
      intro c hc
      simp only [runHandler, runFatalError, List.mem_append, List.mem_singleton] at hc
      rcases hc with hc | hc
      · exact h c hc
      · subst hc; rfl
  | hOnLoadStart =>
      rw [show runHandler P .hOnLoadStart s = runOnLoadStart P s from rfl]
      intro c hc
      rw [cb_runOnLoadStart] at hc
      exact h c hc
  | hOnLoadedMetadata =>
      intro c hc
      simp only [runHandler, runOnLoadedMetadata, List.mem_append, List.mem_singleton] at hc
      rcases hc with hc | hc
      · exact h c hc
      · subst hc; rfl
  | hProgress =>
      rw [show runHandler P .hProgress s = runProgress s from rfl]
      intro c hc
      rw [cb_runProgress] at hc
      exact h c hc

lemma cbok_step {P : Params} {s : MState} (ev : EnvEvent) (h : CbOK s) :
    CbOK (msStep P s ev) := by
  cases ev with
  | dom d =>
      have hms : msStep P s (.dom d) = dispatchDom P d s := rfl
      rw [hms]
      unfold dispatchDom
      cases hs : s.elem with
      | none => exact h
      | some e =>
          exact foldl_preserve CbOK (fun st hh => runHandler P hh st)
            (fun st a hq => cbok_runHandler a hq) _ s h
  | timeUpdate t => exact fun c hc => h c hc
  | blobResolved r =>
      rw [show msStep P s (.blobResolved r) = onBlobResolved P r s from rfl]
      unfold onBlobResolved
      split
      · dsimp only
        split
        · intro c hc
          simp only [runFatalError, List.mem_append, List.mem_singleton] at hc
          rcases hc with hc | hc
          · exact h c hc
          · subst hc; rfl
        · split
          · exact fun c hc => h c hc
          · split
            · exact fun c hc => h c hc
            · exact fun c hc => h c hc
      · exact h
  | playRejected m =>
      have hms : msStep P s (.playRejected m) =
          if s.pendingPlay then runFatalError P m { s with pendingPlay := false } else s := rfl
      rw [hms]
      split
      · intro c hc
        simp only [runFatalError, List.mem_append, List.mem_singleton] at hc
        rcases hc with hc | hc
        · exact h c hc
        · subst hc; rfl
      · exact h

/-! ## Codec bookkeeping -/

lemma codecs_mapElem (f : Elem → Elem) (s : MState) :
    (mapElem f s).codecsHanded = s.codecsHanded := rfl

lemma codecs_prepareElem (s : MState) : (prepareElem s).codecsHanded = s.codecsHanded := by
  unfold prepareElem; cases s.elem <;> rfl

lemma codecs_runProgress (s : MState) : (runProgress s).codecsHanded = s.codecsHanded := by
  unfold runProgress; cases s.elem <;> rfl

lemma codecs_runOnLoadStart (P : Params) (s : MState) :
    (runOnLoadStart P s).codecsHanded = s.codecsHanded := by
  unfold runOnLoadStart; split <;> rfl

lemma codecs_useVideostream (P : Params) (s : MState) :
    (useVideostream P s).codecsHanded = s.codecsHanded := codecs_prepareElem s

lemma codecs_useBlobURL (P : Params) (s : MState) :
    (useBlobURL P s).codecsHanded = s.codecsHanded := codecs_prepareElem s

lemma codecs_useMediaSource (P : Params) (s : MState) :
    (useMediaSource P s).codecsHanded = s.codecsHanded ++ [getCodec P.file.name] := by
  unfold useMediaSource
  dsimp only
  split <;>
    (show (prepareElem s).codecsHanded ++ _ = _
     rw [codecs_prepareElem])

lemma codecs_runFallbackToMediaSource (P : Params) (s : MState) :
    (runFallbackToMediaSource P s).codecsHanded =
      s.codecsHanded ++ [getCodec P.file.name] := by
  unfold runFallbackToMediaSource
  rw [codecs_useMediaSource, codecs_mapElem]

/-- `getCodec` is defined at every buffered-source-eligible extension. -/
lemma getCodec_total (name : String) (h : extnameOf name ∈ MEDIASOURCE_EXTS) :
    (getCodec name).isSome = true := by
  unfold getCodec
  simp only [MEDIASOURCE_EXTS, MEDIASOURCE_VIDEO_EXTS, MEDIASOURCE_AUDIO_EXTS,
    List.mem_append, List.mem_cons, List.mem_singleton, List.not_mem_nil, or_false] at h
  rcases h with (h | h | h | h) | (h | h | h | h) <;> rw [h] <;> decide

/-- All codec descriptors handed to `createWriteStream` so far are defined. -/
def CodecOK (s : MState) : Prop :=
  ∀ c ∈ s.codecsHanded, c.isSome = true

lemma codecok_runHandler {P : Params} {s : MState}
    (hg : (getCodec P.file.name).isSome = true) (hv : Handler) (h : CodecOK s) :
    CodecOK (runHandler P hv s) := by
  cases hv with
  | hFallbackToMediaSource =>
      intro c hc
      rw [show runHandler P .hFallbackToMediaSource s = runFallbackToMediaSource P s from rfl,
        codecs_runFallbackToMediaSource] at hc
      rcases List.mem_append.mp hc with hc | hc
      · exact h c hc
      · rw [List.mem_singleton] at hc; subst hc; exact hg
  | hFallbackToBlobURL =>
      intro c hc
      rw [show runHandler P .hFallbackToBlobURL s = runFallbackToBlobURL P s from rfl] at hc
      cases hv2 : checkBlobVerdict P with
      | some m =>
          rw [runFallbackToBlobURL_guard_fail s hv2] at hc
          exact h c hc
      | none =>
          rw [runFallbackToBlobURL_guard_pass s hv2, codecs_useBlobURL, codecs_mapElem] at hc
          exact h c hc
  | hFatalError => exact fun c hc => h c hc
  | hOnLoadStart =>
      intro c hc
      rw [show runHandler P .hOnLoadStart s = runOnLoadStart P s from rfl,
        codecs_runOnLoadStart] at hc
      exact h c hc
  | hOnLoadedMetadata => exact fun c hc => h c hc
  | hProgress =>
      intro c hc
      rw [show runHandler P .hProgress s = runProgress s from rfl, codecs_runProgress] at hc
      exact h c hc

lemma codecok_step {P : Params} {s : MState}
    (hg : (getCodec P.file.name).isSome = true) (ev : EnvEvent) (h : CodecOK s) :
    CodecOK (msStep P s ev) := by
  cases ev with
  | dom d =>
      have hms : msStep P s (.dom d) = dispatchDom P d s := rfl
      rw [hms]
      unfold dispatchDom
      cases hs : s.elem with
      | none => exact h
      | some e =>
          exact foldl_preserve CodecOK (fun st hh => runHandler P hh st)
            (fun st a hq => codecok_runHandler hg a hq) _ s h
  | timeUpdate t => exact fun c hc => h c hc
  | blobResolved r =>
      rw [show msStep P s (.blobResolved r) = onBlobResolved P r s from rfl]
      unfold onBlobResolved
      split
      · dsimp only
        split
        · exact fun c hc => h c hc
        · split
          · exact fun c hc => h c hc
          · split
            · exact fun c hc => h c hc
            · exact fun c hc => h c hc
      · exact h
  | playRejected m =>
      have hms : msStep P s (.playRejected m) =
          if s.pendingPlay then runFatalError P m { s with pendingPlay := false } else s := rfl
      rw [hms]
      split
      · exact fun c hc => h c hc
      · exact h

/-! ## Initial states -/

lemma inv_initMS (P : Params) (supported : Bool) : Inv (initMS P supported) := by
  have hnone : ∀ e, (s0 Strategy.videostream).elem = some e → NeutralWF e.listeners := by
    intro e he
    simp [s0] at he
  unfold initMS
  split
  · split
    · exact inv_useVideostream hnone
    · exact inv_useMediaSource hnone
  · exact inv_useBlobURL hnone

lemma initPlain_guard_fail {P : Params} {m : String} (hv : checkBlobVerdict P = some m) :
    initPlain P = runFatalError P m (s0 .plainMedia) := by
  unfold initPlain
  simp [checkBlobLength, hv]

lemma initPlain_guard_pass {P : Params} (hv : checkBlobVerdict P = none) :
    initPlain P = ⟨0, some ⟨[], none, 0, true⟩, 1, .plainMedia, true, false, [], []⟩ := by
  unfold initPlain
  simp [checkBlobLength, hv, s0]

lemma inv_initPlain (P : Params) : Inv (initPlain P) := by
  cases hv : checkBlobVerdict P with
  | some m =>
      rw [initPlain_guard_fail hv]
      intro e he
      simp [runFatalError, s0] at he
  | none =>
      rw [initPlain_guard_pass hv]
      intro e he
      simp only [Option.some.injEq] at he
      subst he
      exact ⟨by simp, by simp⟩

lemma inv_runMS (P : Params) (supported : Bool) (evs : List EnvEvent) :
    Inv (runMS P supported evs) :=
  foldl_preserve Inv (msStep P) (fun _ ev h => inv_step ev h) evs _ (inv_initMS P supported)

lemma inv_runPlain (P : Params) (evs : List EnvEvent) : Inv (runPlain P evs) :=
  foldl_preserve Inv (msStep P) (fun _ ev h => inv_step ev h) evs _ (inv_initPlain P)

lemma cbok_initMS (P : Params) (supported : Bool) : CbOK (initMS P supported) := by
  unfold initMS
  split
  · split
    · intro c hc; rw [cb_useVideostream] at hc; simp [s0] at hc
    · intro c hc; rw [cb_useMediaSource] at hc; simp [s0] at hc
  · intro c hc; rw [cb_useBlobURL] at hc; simp [s0] at hc

lemma cbok_initPlain (P : Params) : CbOK (initPlain P) := by
  cases hv : checkBlobVerdict P with
  | some m =>
      rw [initPlain_guard_fail hv]
      intro c hc
      simp only [runFatalError, s0, List.nil_append, List.mem_singleton] at hc
      subst hc; rfl
  | none =>
      rw [initPlain_guard_pass hv]
      intro c hc
      simp [s0] at hc

lemma cbok_runMS (P : Params) (supported : Bool) (evs : List EnvEvent) :
    CbOK (runMS P supported evs) :=
  foldl_preserve CbOK (msStep P) (fun _ ev h => cbok_step ev h) evs _ (cbok_initMS P supported)

lemma cbok_runPlain (P : Params) (evs : List EnvEvent) : CbOK (runPlain P evs) :=
  foldl_preserve CbOK (msStep P) (fun _ ev h => cbok_step ev h) evs _ (cbok_initPlain P)

lemma codecok_initMS {P : Params} (hg : (getCodec P.file.name).isSome = true)
    (supported : Bool) : CodecOK (initMS P supported) := by
  unfold initMS
  split
  · split
    · intro c hc; rw [codecs_useVideostream] at hc; simp [s0] at hc
    · intro c hc
      rw [codecs_useMediaSource] at hc
      simp only [s0, List.nil_append, List.mem_singleton] at hc
      subst hc; exact hg
  · intro c hc; rw [codecs_useBlobURL] at hc; simp [s0] at hc

lemma codecok_runMS {P : Params} (hg : (getCodec P.file.name).isSome = true)
    (supported : Bool) (evs : List EnvEvent) : CodecOK (runMS P supported evs) :=
  foldl_preserve CodecOK (msStep P) (fun _ ev h => codecok_step hg ev h) evs _
    (codecok_initMS hg supported)

/-! ## State equations for single transitions -/

/-- The listener list right after `useVideostream` wires a fresh element. -/
def vsListeners : List (DomEvent × Handler) :=
  [(.progress, .hProgress), (.error, .hFallbackToMediaSource),
   (.loadstart, .hOnLoadStart), (.loadedmetadata, .hOnLoadedMetadata)]

/-- The listener list right after `useMediaSource` wires a fresh element. -/
def msListeners : List (DomEvent × Handler) :=
  [(.progress, .hProgress), (.error, .hFallbackToBlobURL),
   (.loadstart, .hOnLoadStart), (.loadedmetadata, .hOnLoadedMetadata)]

/-- The listener list right after `useBlobURL` wires a fresh element. -/
def blobListeners : List (DomEvent × Handler) :=
  [(.progress, .hProgress), (.error, .hFatalError),
   (.loadstart, .hOnLoadStart), (.loadedmetadata, .hOnLoadedMetadata)]

lemma handlersFor_vs {e : Elem} (hl : e.listeners = vsListeners) :
    handlersFor e .error = [Handler.hFallbackToMediaSource] := by
  unfold handlersFor; rw [hl]; rfl

lemma handlersFor_ms {e : Elem} (hl : e.listeners = msListeners) :
    handlersFor e .error = [Handler.hFallbackToBlobURL] := by
  unfold handlersFor; rw [hl]; rfl

lemma handlersFor_blob {e : Elem} (hl : e.listeners = blobListeners) :
    handlersFor e .error = [Handler.hFatalError] := by
  unfold handlersFor; rw [hl]; rfl

lemma handlersFor_progress {e : Elem}
    (hl : e.listeners = vsListeners ∨ e.listeners = msListeners) :
    handlersFor e .progress = [Handler.hProgress] := by
  unfold handlersFor
  rcases hl with hl | hl <;> rw [hl] <;> rfl

lemma dispatch_one {P : Params} {s : MState} {e : Elem} {hh : Handler} (ev : DomEvent)
    (hs : s.elem = some e) (hf : handlersFor e ev = [hh]) :
    msStep P s (.dom ev) = runHandler P hh s := by
  have hms : msStep P s (.dom ev) = dispatchDom P ev s := rfl
  rw [hms]
  unfold dispatchDom
  rw [hs]
  dsimp only
  rw [hf]
  rfl

/-- Resolution of `useBlobURL`'s `getBlobURL` call: `elem.src = url` starts a
fresh load, then `if (currentTime) elem.currentTime = currentTime`. -/
lemma onBlobResolved_ok_nonplain {P : Params} {s : MState} {e : Elem} (url : String)
    (hs : s.elem = some e) (hp : s.pendingBlob = true)
    (hstr : ¬ s.strategy = Strategy.plainMedia) :
    onBlobResolved P (.ok url) s =
      ⟨s.currentTime, some ⟨e.listeners, some url, s.currentTime, e.attached⟩,
        s.getElemCalls, s.strategy, false, s.pendingPlay, s.codecsHanded, s.cbCalls⟩ := by
  unfold onBlobResolved
  by_cases hct : s.currentTime = 0 <;> simp [hp, hstr, mapElem, hs, hct]

lemma useBlobURL_eq_some {P : Params} {s : MState} {e : Elem} (hs : s.elem = some e) :
    useBlobURL P s =
      ⟨s.currentTime, some (attachListeners .hFatalError e), s.getElemCalls,
        .blobURL, true, s.pendingPlay, s.codecsHanded, s.cbCalls⟩ := by
  unfold useBlobURL
  rw [prepareElem_some hs]
  dsimp only
  rw [mapElem_some hs]

lemma useMediaSource_eq_some {P : Params} {s : MState} {e : Elem} (hs : s.elem = some e) :
    useMediaSource P s =
      ⟨s.currentTime,
        some ⟨(attachListeners .hFallbackToBlobURL e).listeners,
          (attachListeners .hFallbackToBlobURL e).src, s.currentTime,
          (attachListeners .hFallbackToBlobURL e).attached⟩,
        s.getElemCalls, .mediaSource, s.pendingBlob, s.pendingPlay,
        s.codecsHanded ++ [getCodec P.file.name], s.cbCalls⟩ := by
  unfold useMediaSource
  rw [prepareElem_some hs]
  by_cases hct : s.currentTime = 0
  · simp [mapElem, hs, hct]
  · simp [mapElem, hs, hct]

lemma runFallbackToMediaSource_eq {P : Params} {s : MState} {e : Elem}
    (hs : s.elem = some e) :
    runFallbackToMediaSource P s = useMediaSource P
      ⟨s.currentTime,
        some ⟨removeL (removeL e.listeners .error .hFallbackToMediaSource)
            .loadedmetadata .hOnLoadedMetadata, e.src, e.currentTime, e.attached⟩,
        s.getElemCalls, s.strategy, s.pendingBlob, s.pendingPlay,
        s.codecsHanded, s.cbCalls⟩ := by
  unfold runFallbackToMediaSource
  rw [mapElem_some hs]

lemma runFallbackToBlobURL_eq {P : Params} {s : MState} {e : Elem}
    (hs : s.elem = some e) (hv : checkBlobVerdict P = none) :
    runFallbackToBlobURL P s = useBlobURL P
      ⟨s.currentTime,
        some ⟨removeL (removeL e.listeners .error .hFallbackToBlobURL)
            .loadedmetadata .hOnLoadedMetadata, e.src, e.currentTime, e.attached⟩,
        s.getElemCalls, s.strategy, s.pendingBlob, s.pendingPlay,
        s.codecsHanded, s.cbCalls⟩ := by
  rw [runFallbackToBlobURL_guard_pass s hv, mapElem_some hs]

/-! ## Concrete inputs used by counterexamples and witnesses -/

def pClip : Params := ⟨⟨"clip.mp4", some 1000, []⟩, defaultOpts⟩

def pClipBig : Params := ⟨⟨"clip.mp4", some (MAX_BLOB_LENGTH + 1), []⟩, defaultOpts⟩

def pMov : Params := ⟨⟨"a.mov", some 1000, []⟩, defaultOpts⟩

def pMovBig : Params := ⟨⟨"a.mov", some (MAX_BLOB_LENGTH + 1), []⟩, defaultOpts⟩

def pXyz : Params := ⟨⟨"notes.xyz", none, [0, 1, 2]⟩, defaultOpts⟩

/-- A mid-playback `useVideostream` state: element prepared, videostream wired,
position 7 seconds already captured by the progress listener. -/
def sampleVS : MState :=
  ⟨7, some ⟨vsListeners, none, 7, true⟩, 1, .videostream, false, false, [], []⟩

/-! ## Claims -/

/-- C9: the static extension tables satisfy the configuration invariants:
every direct-streaming-eligible extension is also buffered-source-eligible,
and the five category sets (MediaSource streaming, plain video, plain audio,
image, inline document) are pairwise disjoint. -/
theorem c9_tables :
    (∀ ext ∈ VIDEOSTREAM_EXTS, ext ∈ MEDIASOURCE_VIDEO_EXTS ∨ ext ∈ MEDIASOURCE_AUDIO_EXTS)
    ∧ (∀ ext ∈ MEDIASOURCE_EXTS,
        ext ∉ VIDEO_EXTS ∧ ext ∉ AUDIO_EXTS ∧ ext ∉ IMAGE_EXTS ∧ ext ∉ IFRAME_EXTS)
    ∧ (∀ ext ∈ VIDEO_EXTS, ext ∉ AUDIO_EXTS ∧ ext ∉ IMAGE_EXTS ∧ ext ∉ IFRAME_EXTS)
    ∧ (∀ ext ∈ AUDIO_EXTS, ext ∉ IMAGE_EXTS ∧ ext ∉ IFRAME_EXTS)
    ∧ (∀ ext ∈ IMAGE_EXTS, ext ∉ IFRAME_EXTS) := by
  decide

/-- Witness for C9 at a concrete extension. -/
theorem c9_witness :
    ".mp4" ∈ MEDIASOURCE_VIDEO_EXTS ∨ ".mp4" ∈ MEDIASOURCE_AUDIO_EXTS :=
  c9_tables.1 ".mp4" (by decide)

/-- C10: for every buffered-source-eligible extension the codec lookup is
defined, and hence every codec descriptor the dispatcher ever hands to the
buffered-source adapter (`createWriteStream(getCodec(file.name))`) is
defined — the undefined lookup is unreachable on that path. -/
theorem c10_codec_defined :
    (∀ (name : String), extnameOf name ∈ MEDIASOURCE_EXTS → (getCodec name).isSome = true)
    ∧ (∀ (P : Params) (supported : Bool) (evs : List EnvEvent),
        extnameOf P.file.name ∈ MEDIASOURCE_EXTS →
        ∀ c ∈ (runMS P supported evs).codecsHanded, c.isSome = true) := by
  refine ⟨getCodec_total, ?_⟩
  intro P supported evs h c hc
  exact codecok_runMS (getCodec_total _ h) supported evs c hc

/-- Witness for C10 at a concrete file name. -/
theorem c10_witness : (getCodec "clip.mp4").isSome = true :=
  c10_codec_defined.1 "clip.mp4" (by decide)

/-- C7: for an unknown extension the render reads at most bytes 0 through 1000
(the classification outcome depends only on that prefix); an ASCII-text prefix
goes down the inline-document path, a prefix with a null byte yields an
unsupported-type error naming the extension, and a read error during the sniff
is delivered to the callback unchanged. -/
theorem c7_sniff :
    (∀ (P Q : Params) (r : Option String), P.file.name = Q.file.name →
        P.file.content.take 1001 = Q.file.content.take 1001 →
        tryRenderIframe P r = tryRenderIframe Q r)
    ∧ (∀ (P : Params), isAsciiText (sniffRead P.file.content) = true →
        tryRenderIframe P none = SniffOutcome.iframe)
    ∧ (∀ (P : Params), 0 ∈ sniffRead P.file.content →
        tryRenderIframe P none = SniffOutcome.unsupported
          ("Unsupported file type \"" ++ extnameOf P.file.name ++ "\": Cannot append to DOM"))
    ∧ (∀ (P : Params) (m : String), tryRenderIframe P (some m) = SniffOutcome.readError m) := by
  refine ⟨?_, ?_, ?_, ?_⟩
  · intro P Q r hn hc
    unfold tryRenderIframe sniffRead
    cases r with
    | some m => rfl
    | none => rw [hn, hc]
  · intro P h
    unfold tryRenderIframe
    rw [h]
    rfl
  · intro P h0
    have hfalse : isAsciiText (sniffRead P.file.content) = false := by
      cases hb : isAsciiText (sniffRead P.file.content) with
      | false => rfl
      | true =>
          exfalso
          have hall := List.all_eq_true.mp hb 0 h0
          simp at hall
    unfold tryRenderIframe
    rw [hfalse]
    rfl
  · intro P m
    rfl

/-- Witness for C7: a binary prefix (containing a null byte) under an unknown
extension is rejected with the unsupported-type error naming `.xyz`. -/
theorem c7_witness :
    tryRenderIframe pXyz none =
      SniffOutcome.unsupported "Unsupported file type \".xyz\": Cannot append to DOM" :=
  c7_sniff.2.2.1 pXyz (by decide)

/-- C2, counterexample: for `clip.mp4` on a platform lacking buffered-source
support, the claim predicts the direct-streaming (videostream) adapter first;
the code instead goes straight to the Blob URL strategy. -/
theorem c2_counterexample :
    extnameOf pClip.file.name ∈ MEDIASOURCE_EXTS ∧
    (initMS pClip false).strategy = Strategy.blobURL ∧
    Strategy.blobURL ≠ Strategy.videostream := by
  exact ⟨by decide, rfl, by decide⟩

/-- C2, amended: for a streaming-eligible extension, the videostream adapter
is attempted first exactly when the platform HAS MediaSource support AND the
extension is direct-streaming-eligible; with support but an ineligible
extension, the buffered-source adapter is first; without support, the render
goes directly to whole-resource materialization. -/
theorem c2_amended (P : Params) (supported : Bool)
    (h : extnameOf P.file.name ∈ MEDIASOURCE_EXTS) :
    ((initMS P supported).strategy = Strategy.videostream ↔
        supported = true ∧ extnameOf P.file.name ∈ VIDEOSTREAM_EXTS)
    ∧ ((initMS P supported).strategy = Strategy.mediaSource ↔
        supported = true ∧ extnameOf P.file.name ∉ VIDEOSTREAM_EXTS)
    ∧ ((initMS P supported).strategy = Strategy.blobURL ↔ supported = false) := by
  have hvs : (useVideostream P (s0 .videostream)).strategy = Strategy.videostream := rfl
  have hbl : (useBlobURL P (s0 .videostream)).strategy = Strategy.blobURL := rfl
  have hms := strategy_useMediaSource P (s0 Strategy.videostream)
  unfold initMS
  cases supported with
  | false =>
      simp only [Bool.false_eq_true, if_false, hbl]
      refine ⟨by simp, by simp, by simp⟩
  | true =>
      by_cases hv : extnameOf P.file.name ∈ VIDEOSTREAM_EXTS
      · simp only [if_true, hv, if_pos, hvs]
        refine ⟨by simp [hv], by simp [hv], by simp⟩
      · rw [if_pos rfl, if_neg hv]
        rw [hms]
        refine ⟨by simp [hv], by simp [hv], by simp⟩

/-- Witness for C2 at `clip.mp4` on a MediaSource-capable platform. -/
theorem c2_witness :
    (initMS pClip true).strategy = Strategy.videostream ↔
      true = true ∧ extnameOf pClip.file.name ∈ VIDEOSTREAM_EXTS :=
  (c2_amended pClip true (by decide)).1

/-- C3, counterexample: with no MediaSource support, an oversized file (length
strictly above `opts.maxBlobLength`) still enters the Blob URL strategy: the
whole-resource read is started (`pendingBlob`) and no too-large error is
reported — the guard is absent on this route into materialization. -/
theorem c3_counterexample :
    pClipBig.file.length = some (MAX_BLOB_LENGTH + 1) ∧
    pClipBig.opts.maxBlobLength = MAX_BLOB_LENGTH ∧
    (initMS pClipBig false).pendingBlob = true ∧
    (initMS pClipBig false).cbCalls = [] := by
  exact ⟨rfl, rfl, rfl, rfl⟩

/-- C3, amended: the resource-limit guard precedes materialization on the
plain audio/video path (oversized files fail fast with the too-large error
before the element is created or a byte is read; unknown or in-bounds lengths
pass) and on the buffered-source → Blob URL fallback route (an oversized file
reports the too-large error and the Blob strategy is not attempted); but on
the initial no-MediaSource-support route materialization begins with no guard
at all. -/
theorem c3_amended :
    (∀ (P : Params) (n : Int), P.file.length = some n → P.opts.maxBlobLength < n →
        (initPlain P).cbCalls =
          [⟨some (fatalMsg P.file.name (tooLargeMsg n P.opts.maxBlobLength)), false⟩] ∧
        (initPlain P).pendingBlob = false ∧ (initPlain P).elem = none ∧
        (initPlain P).getElemCalls = 0)
    ∧ (∀ (P : Params), P.file.length = none →
        (initPlain P).cbCalls = [] ∧ (initPlain P).pendingBlob = true)
    ∧ (∀ (P : Params) (n : Int), P.file.length = some n → ¬ P.opts.maxBlobLength < n →
        (initPlain P).cbCalls = [] ∧ (initPlain P).pendingBlob = true)
    ∧ (∀ (P : Params) (s : MState) (e : Elem) (n : Int), s.elem = some e →
        e.listeners = msListeners → P.file.length = some n → P.opts.maxBlobLength < n →
        (msStep P s (.dom .error)).cbCalls =
          s.cbCalls ++ [⟨some (fatalMsg P.file.name (tooLargeMsg n P.opts.maxBlobLength)), false⟩] ∧
        (msStep P s (.dom .error)).pendingBlob = s.pendingBlob ∧
        (msStep P s (.dom .error)).strategy = s.strategy)
    ∧ (∀ (P : Params), (initMS P false).pendingBlob = true ∧ (initMS P false).cbCalls = []) := by
  refine ⟨?_, ?_, ?_, ?_, ?_⟩
  · intro P n hl hlt
    have hv : checkBlobVerdict P = some (tooLargeMsg n P.opts.maxBlobLength) := by
      simp [checkBlobVerdict, hl, hlt]
    rw [initPlain_guard_fail hv]
    exact ⟨rfl, rfl, rfl, rfl⟩
  · intro P hl
    have hv : checkBlobVerdict P = none := by simp [checkBlobVerdict, hl]
    rw [initPlain_guard_pass hv]
    exact ⟨rfl, rfl⟩
  · intro P n hl hle
    have hv : checkBlobVerdict P = none := by simp [checkBlobVerdict, hl, hle]
    rw [initPlain_guard_pass hv]
    exact ⟨rfl, rfl⟩
  · intro P s e n hs hl hlen hlt
    have hv : checkBlobVerdict P = some (tooLargeMsg n P.opts.maxBlobLength) := by
      simp [checkBlobVerdict, hlen, hlt]
    rw [dispatch_one .error hs (handlersFor_ms hl),
      show runHandler P .hFallbackToBlobURL s = runFallbackToBlobURL P s from rfl,
      runFallbackToBlobURL_guard_fail s hv]
    exact ⟨rfl, rfl, rfl⟩
  · intro P
    exact ⟨rfl, rfl⟩

/-- Witness for C3: a plain `.mov` file one byte over the limit fails fast. -/
theorem c3_witness :
    (initPlain pMovBig).cbCalls =
      [⟨some (fatalMsg pMovBig.file.name
        (tooLargeMsg (MAX_BLOB_LENGTH + 1) pMovBig.opts.maxBlobLength)), false⟩] ∧
    (initPlain pMovBig).pendingBlob = false ∧ (initPlain pMovBig).elem = none ∧
    (initPlain pMovBig).getElemCalls = 0 :=
  c3_amended.1 pMovBig (MAX_BLOB_LENGTH + 1) rfl (by decide)

/-- C4: the claim says a failing `append` removes the element it attached; in
the code `fatalError` invokes `cb(err)` with no element argument, so `done`'s
`if (err && elem) elem.remove()` can never fire: on a blob-conversion error
the element stays attached and the callback receives the error with no
element. The general parts show every callback invocation the dispatcher can
ever produce fails `done`'s removal test. On success the element is delivered
to the callback and remains attached. -/
theorem c4_element_not_removed :
    ((runPlain pMov [.blobResolved (.err "boom")]).cbCalls =
        [⟨some (fatalMsg "a.mov" "boom"), false⟩]
      ∧ (runPlain pMov [.blobResolved (.err "boom")]).elem = some ⟨[], none, 0, true⟩)
    ∧ (∀ (P : Params) (supported : Bool) (evs : List EnvEvent) (c : CbCall),
        c ∈ (runMS P supported evs).cbCalls → appendDone c = false)
    ∧ (∀ (P : Params) (evs : List EnvEvent) (c : CbCall),
        c ∈ (runPlain P evs).cbCalls → appendDone c = false)
    ∧ (runPlain pMov [.blobResolved (.ok "blob:a"), .dom .loadedmetadata]).cbCalls =
        [⟨none, true⟩]
    ∧ ∃ e, (runPlain pMov [.blobResolved (.ok "blob:a"), .dom .loadedmetadata]).elem = some e ∧
        e.attached = true := by
  refine ⟨⟨rfl, rfl⟩, ?_, ?_, rfl, ?_⟩
  · intro P supported evs c hc
    exact cbok_runMS P supported evs c hc
  · intro P evs c hc
    exact cbok_runPlain P evs c hc
  · exact ⟨_, rfl, rfl⟩

/-- Witness for C4: the failure callback of the failing `append` run fails
`done`'s removal test. -/
theorem c4_witness :
    appendDone ⟨some (fatalMsg "a.mov" "boom"), false⟩ = false :=
  c4_element_not_removed.2.2.1 pMov [.blobResolved (.err "boom")]
    ⟨some (fatalMsg "a.mov" "boom"), false⟩ (by decide)

/-- C1, counterexample: there is no `completed` guard in the code. On the
no-MediaSource route, after the render succeeds (`loadedmetadata` fires the
callback with the element), a later `error` event on the element still finds
`fatalError` attached and the callback is invoked a second time, now with an
error: the completion callback fires twice in one render. -/
theorem c1_counterexample :
    (runMS pClip false
      [.blobResolved (.ok "blob:a"), .dom .loadedmetadata, .dom .error]).cbCalls =
      [⟨none, true⟩, ⟨some (fatalMsg "clip.mp4" domErrorMsg), false⟩] := by
  rfl

/-- C1, amended: under the dispatcher invariant each environment event adds at
most one callback invocation, and along each of the three canonical runs of
the spec — first strategy succeeds, all strategies fail, last strategy
succeeds — the callback fires exactly once; but an element event arriving
after the terminal outcome can fire it again (no `completed` flag exists). -/
theorem c1_amended :
    (∀ (P : Params) (s : MState) (ev : EnvEvent), Inv s →
        (msStep P s ev).cbCalls.length ≤ s.cbCalls.length + 1)
    ∧ (runMS pClip true [.dom .loadstart, .dom .loadedmetadata]).cbCalls = [⟨none, true⟩]
    ∧ (runMS pClip true [.dom .error, .dom .error, .blobResolved (.err "read fail")]).cbCalls =
        [⟨some (fatalMsg "clip.mp4" "read fail"), false⟩]
    ∧ (runMS pClip true
        [.dom .error, .dom .error, .blobResolved (.ok "blob:a"), .dom .loadedmetadata]).cbCalls =
        [⟨none, true⟩] := by
  exact ⟨fun P s ev h => cb_len_step ev h, rfl, rfl, rfl⟩

/-- Witness for C1 at the initial videostream state of a `clip.mp4` render. -/
theorem c1_witness :
    (msStep pClip (initMS pClip true) (.dom .loadstart)).cbCalls.length ≤
      (initMS pClip true).cbCalls.length + 1 :=
  c1_amended.1 pClip (initMS pClip true) (.dom .loadstart) (inv_initMS pClip true)

/-- C5: across a strategy fallback the position captured from the element's
progress events is preserved: the progress listener stores `elem.currentTime`
in the closure variable; a videostream failure re-invokes `useMediaSource` on
the same element (`getElemCalls` unchanged) and re-applies the captured
position to it; a buffered-source failure falls back to the Blob URL strategy
on the same element, and the captured position is re-applied when the blob URL
resolves and is assigned as the element's source. -/
theorem c5_position_preserved :
    (∀ (P : Params) (s : MState) (e : Elem), s.elem = some e →
        (e.listeners = vsListeners ∨ e.listeners = msListeners) →
        (msStep P s (.dom .progress)).currentTime = e.currentTime)
    ∧ (∀ (P : Params) (s : MState) (e : Elem), s.elem = some e →
        e.listeners = vsListeners →
        (msStep P s (.dom .error)).strategy = Strategy.mediaSource ∧
        (msStep P s (.dom .error)).getElemCalls = s.getElemCalls ∧
        ∃ e2, (msStep P s (.dom .error)).elem = some e2 ∧ e2.currentTime = s.currentTime)
    ∧ (∀ (P : Params) (s : MState) (e : Elem) (url : String), s.elem = some e →
        e.listeners = msListeners → checkBlobVerdict P = none →
        (msStep P (msStep P s (.dom .error)) (.blobResolved (.ok url))).getElemCalls =
          s.getElemCalls ∧
        ∃ e2, (msStep P (msStep P s (.dom .error)) (.blobResolved (.ok url))).elem = some e2 ∧
          e2.currentTime = s.currentTime ∧ e2.src = some url) := by
  refine ⟨?_, ?_, ?_⟩
  · intro P s e hs hl
    rw [dispatch_one .progress hs (handlersFor_progress hl),
      show runHandler P .hProgress s = runProgress s from rfl]
    unfold runProgress
    rw [hs]
  · intro P s e hs hl
    rw [dispatch_one .error hs (handlersFor_vs hl),
      show runHandler P .hFallbackToMediaSource s = runFallbackToMediaSource P s from rfl,
      runFallbackToMediaSource_eq hs, useMediaSource_eq_some rfl]
    exact ⟨rfl, rfl, _, rfl, rfl⟩
  · intro P s e url hs hl hv
    rw [dispatch_one .error hs (handlersFor_ms hl),
      show runHandler P .hFallbackToBlobURL s = runFallbackToBlobURL P s from rfl,
      runFallbackToBlobURL_eq hs hv, useBlobURL_eq_some rfl,
      show msStep P _ (.blobResolved (.ok url)) = onBlobResolved P (.ok url) _ from rfl,
      onBlobResolved_ok_nonplain url rfl rfl (fun hcon => Strategy.noConfusion hcon)]
    exact ⟨rfl, _, rfl, rfl, rfl⟩

/-- Witness for C5: a videostream state with captured position 7 falls back to
the buffered-source strategy on the same element with position 7 restored. -/
theorem c5_witness :
    (msStep pClip sampleVS (.dom .error)).strategy = Strategy.mediaSource ∧
    (msStep pClip sampleVS (.dom .error)).getElemCalls = sampleVS.getElemCalls ∧
    ∃ e2, (msStep pClip sampleVS (.dom .error)).elem = some e2 ∧
      e2.currentTime = sampleVS.currentTime :=
  c5_position_preserved.2.1 pClip sampleVS ⟨vsListeners, none, 7, true⟩ rfl rfl

/-- C6: the strategy order is fixed and strictly decreasing in capability.
The dispatcher invariant holds initially and is preserved by every event; no
event ever moves the render to an earlier strategy (so a failed strategy is
never re-attempted); a videostream failure advances strictly to the
buffered-source strategy; a buffered-source failure advances strictly to
materialization when the length guard passes, and otherwise terminates with
the error reported; an error of the terminal (Blob URL) strategy reports
terminal failure without changing strategy or starting any further attempt. -/
theorem c6_strict_fallback :
    (∀ (P : Params) (supported : Bool), Inv (initMS P supported))
    ∧ (∀ (P : Params) (s : MState) (ev : EnvEvent), Inv s → Inv (msStep P s ev))
    ∧ (∀ (P : Params) (s : MState) (ev : EnvEvent), Inv s →
        idx s.strategy ≤ idx (msStep P s ev).strategy)
    ∧ (∀ (P : Params) (supported : Bool) (evs : List EnvEvent) (ev : EnvEvent),
        idx (runMS P supported evs).strategy ≤ idx (runMS P supported (evs ++ [ev])).strategy)
    ∧ (∀ (P : Params) (s : MState) (e : Elem), s.elem = some e → e.listeners = vsListeners →
        (msStep P s (.dom .error)).strategy = Strategy.mediaSource)
    ∧ (∀ (P : Params) (s : MState) (e : Elem), s.elem = some e → e.listeners = msListeners →
        (checkBlobVerdict P = none →
          (msStep P s (.dom .error)).strategy = Strategy.blobURL) ∧
        (∀ m, checkBlobVerdict P = some m →
          (msStep P s (.dom .error)).strategy = s.strategy ∧
          (msStep P s (.dom .error)).cbCalls =
            s.cbCalls ++ [⟨some (fatalMsg P.file.name m), false⟩]))
    ∧ (∀ (P : Params) (s : MState) (e : Elem), s.elem = some e → e.listeners = blobListeners →
        (msStep P s (.dom .error)).strategy = s.strategy ∧
        (msStep P s (.dom .error)).cbCalls =
          s.cbCalls ++ [⟨some (fatalMsg P.file.name domErrorMsg), false⟩] ∧
        (msStep P s (.dom .error)).pendingBlob = s.pendingBlob) := by
  refine ⟨inv_initMS, fun P s ev h => inv_step ev h, fun P s ev h => strategy_step_mono ev h,
    ?_, ?_, ?_, ?_⟩
  · intro P supported evs ev
    have hrw : runMS P supported (evs ++ [ev]) = msStep P (runMS P supported evs) ev := by
      unfold runMS
      rw [List.foldl_append]
      rfl
    rw [hrw]
    exact strategy_step_mono ev (inv_runMS P supported evs)
  · intro P s e hs hl
    rw [dispatch_one .error hs (handlersFor_vs hl),
      show runHandler P .hFallbackToMediaSource s = runFallbackToMediaSource P s from rfl]
    exact strategy_runFallbackToMediaSource P s
  · intro P s e hs hl
    constructor
    · intro hv
      rw [dispatch_one .error hs (handlersFor_ms hl),
        show runHandler P .hFallbackToBlobURL s = runFallbackToBlobURL P s from rfl,
        runFallbackToBlobURL_guard_pass s hv]
      rfl
    · intro m hv
      rw [dispatch_one .error hs (handlersFor_ms hl),
        show runHandler P .hFallbackToBlobURL s = runFallbackToBlobURL P s from rfl,
        runFallbackToBlobURL_guard_fail s hv]
      exact ⟨rfl, rfl⟩
  · intro P s e hs hl
    rw [dispatch_one .error hs (handlersFor_blob hl),
      show runHandler P .hFatalError s = runFatalError P domErrorMsg s from rfl]
    exact ⟨rfl, rfl, rfl⟩

/-- Witness for C6: on the initial state of a `clip.mp4` render the strategy
index never decreases under an error event. -/
theorem c6_witness :
    idx (initMS pClip true).strategy ≤
      idx (msStep pClip (initMS pClip true) (.dom .error)).strategy :=
  c6_strict_fallback.2.2.1 pClip (initMS pClip true) (.dom .error) (inv_initMS pClip true)

/-- C8, counterexample: for an inline-document extension, `render`'s getElem
hook only runs inside `getBlobURL`'s asynchronous callback, so a tag mismatch
(`.txt` rendered into an existing `<video>` element) is NOT thrown from the
entry call: the entry returns normally, and the mismatch error later surfaces
as an uncaught throw inside the promise callback, never reaching the
completion callback. -/
theorem c8_counterexample :
    renderEntry (.fileArg (some "notes.txt") true none []) "VIDEO" defaultOpts =
      .ok (.startedCb [])
    ∧ renderIframeAsync ⟨"notes.txt", none, []⟩ "VIDEO" (.ok "blob:a") =
      .uncaughtThrow (mismatchMsg ".txt" "video" "iframe") := by
  exact ⟨rfl, rfl⟩

/-- C8, amended: a null file, a missing or non-string `file.name`, a missing
`file.createReadStream`, and an `append` parent that is itself a video/audio
element all throw synchronously from the entry call, before any asynchronous
work and without the callback being invoked; and `render`'s tag-mismatch check
is synchronous for the streaming, plain-media (when the resource-size guard
passes) and image categories — but for the inline-document and unknown
categories the entry returns normally and the mismatch only surfaces inside
the asynchronous materialization callback. -/
theorem c8_amended :
    (∀ (t : String) (o : Opts),
        renderEntry .nullFile t o = .error "file cannot be null or undefined")
    ∧ (∀ (crs : Bool) (len : Option Int) (c : List Nat) (t : String) (o : Opts),
        renderEntry (.fileArg none crs len c) t o =
          .error "missing or invalid file.name property")
    ∧ (∀ (n : String) (len : Option Int) (c : List Nat) (t : String) (o : Opts),
        renderEntry (.fileArg (some n) false len c) t o =
          .error "missing or invalid file.createReadStream property")
    ∧ (∀ (n : String) (len : Option Int) (c : List Nat) (t : String),
        t = "VIDEO" ∨ t = "AUDIO" →
        appendEntry (.fileArg (some n) true len c) t =
          .error ("Invalid video/audio node argument. Argument must be root element that " ++
            "video/audio tag will be appended to."))
    ∧ (∀ (f : File) (nodeName : String) (o : Opts) (tag : String),
        syncTagFor (extnameOf f.name) = some tag →
        (categoryOf (extnameOf f.name) = .plainVideo ∨
          categoryOf (extnameOf f.name) = .plainAudio → checkBlobVerdict ⟨f, o⟩ = none) →
        nodeName ≠ jsToUpper tag →
        renderSyncPhase f nodeName o =
          .threw (mismatchMsg (extnameOf f.name) (jsToLower nodeName) tag))
    ∧ (∀ (f : File) (nodeName : String) (o : Opts),
        categoryOf (extnameOf f.name) = .iframeDoc ∨
          categoryOf (extnameOf f.name) = .unknownCat →
        renderSyncPhase f nodeName o = .startedCb []) := by
  refine ⟨fun t o => rfl, fun crs len c t o => rfl, fun n len c t o => rfl, ?_, ?_, ?_⟩
  · intro n len c t ht
    unfold appendEntry validateFile
    simp only [Except.bind]
    rw [if_pos ht]
  · intro f nodeName o tag htag hguard hne
    have hcheck : renderGetElemCheck (extnameOf f.name) nodeName tag =
        some (mismatchMsg (extnameOf f.name) (jsToLower nodeName) tag) := by
      unfold renderGetElemCheck
      rw [if_pos hne]
    unfold syncTagFor at htag
    unfold renderSyncPhase
    dsimp only
    cases hcat : categoryOf (extnameOf f.name) with
    | mediaSourceCat =>
        simp only [hcat, Option.some.injEq] at htag
        subst htag
        rw [hcheck]
    | plainVideo =>
        simp only [hcat, Option.some.injEq] at htag
        subst htag
        rw [hguard (Or.inl hcat), hcheck]
    | plainAudio =>
        simp only [hcat, Option.some.injEq] at htag
        subst htag
        rw [hguard (Or.inr hcat), hcheck]
    | imageCat =>
        simp only [hcat, Option.some.injEq] at htag
        subst htag
        rw [hcheck]
    | iframeDoc =>
        simp only [hcat] at htag
        cases htag
    | unknownCat =>
        simp only [hcat] at htag
        cases htag
  · intro f nodeName o hcat
    unfold renderSyncPhase
    dsimp only
    rcases hcat with hcat | hcat <;> rw [hcat]

/-- Witness for C8: rendering `clip.mp4` into an existing `<div>` throws the
tag-mismatch error synchronously. -/
theorem c8_witness :
    renderSyncPhase ⟨"clip.mp4", none, []⟩ "DIV" defaultOpts =
      .threw (mismatchMsg ".mp4" "div" "video") :=
  c8_amended.2.2.2.2.1 ⟨"clip.mp4", none, []⟩ "DIV" defaultOpts "video" (by decide)
    (fun hor => absurd hor (by decide)) (by decide)

end RenderMedia
